import Mathlib

/-!
# Verification of the transcription service core

A shallow embedding, in Lean 4, of the media-transcription pipeline:
the file-kind classifier, the size validator, the duration estimator,
the request orchestrator with its temp-file lifecycle, the sentiment /
summary degradation policy, the frame sampler, the per-frame analysis
loop and the frame aggregator.  Pure logic is translated directly from
the JavaScript sources (`src/routes/transcribe.js`, `src/utils/*.js`);
external effects (network downloads, the transcoding tool, the model
provider, the filesystem) are modelled as oracle parameters recording
their observable outcomes.
-/

namespace Transcribe

/-- Provider-reported token usage counters (`{promptTokens, completionTokens,
totalTokens}`). -/
structure TokenUsage where
  promptTokens : ℕ
  completionTokens : ℕ
  totalTokens : ℕ
  deriving DecidableEq, Repr

/-! ## String helpers

`substrIn needle hay` models JavaScript's `hay.includes(needle)`;
`extname` models Node's `path.extname` (the part of the final path
segment from its last dot, empty when the only dot starts the name). -/

/-- ASCII lower-casing of one character (the fragment of
`String.prototype.toLowerCase` exercised by MIME strings and extensions). -/
def charToLower (c : Char) : Char :=
  if 65 ≤ c.toNat ∧ c.toNat ≤ 90 then Char.ofNat (c.toNat + 32) else c

/-- ASCII lower-casing of a string. -/
def toLowerStr (s : String) : String :=
  String.mk (s.data.map charToLower)

/-- Substring test on character lists: some suffix of `hay` starts with
`needle`.  Models `String.prototype.includes`. -/
def charsContain (needle : List Char) : List Char → Bool
  | [] => needle.isEmpty
  | c :: t => needle.isPrefixOf (c :: t) || charsContain needle t

/-- Model of `hay.includes(needle)` on strings. -/
def substrIn (needle hay : String) : Bool :=
  charsContain needle.data hay.data

/-- Model of Node's `path.extname`: take the basename (characters after
the last `/`), then the characters from the last `.` on — unless that
dot is the basename's first character, in which case the extension is
empty. -/
def extname (p : String) : String :=
  let base := (p.data.reverse.takeWhile (fun c => c ≠ '/')).reverse
  let afterDot := base.reverse.takeWhile (fun c => c ≠ '.')
  if afterDot.length = base.length then ""
  else if base.length - afterDot.length - 1 = 0 then ""
  else String.mk ('.' :: afterDot.reverse)

/-! ## File kind classifier (`audioUtils.js`, `isAudioFile`) -/

/-- Pure audio-only extensions (never contain video), from `isAudioFile`. -/
def audioOnlyExtensions : List String :=
  [".mp3", ".mpga", ".m4a", ".wav", ".ogg", ".flac", ".aac"]

/-- Ambiguous extensions that can be audio or video, from `isAudioFile`. -/
def ambiguousExtensions : List String :=
  [".mp4", ".mpeg", ".webm"]

/-- Audio MIME types, from `isAudioFile`. -/
def audioMimeTypes : List String :=
  ["audio/mpeg", "audio/mp3", "audio/mp4", "audio/m4a", "audio/wav",
   "audio/webm", "audio/ogg", "audio/flac", "audio/x-m4a", "audio/aac"]

/-- Video MIME types (definitely not audio-only), from `isAudioFile`. -/
def videoMimeTypes : List String :=
  ["video/mp4", "video/mpeg", "video/webm", "video/quicktime",
   "video/x-msvideo", "video/x-matroska", "video/3gpp", "video/x-flv"]

/-- Model of `isAudioFile(filePath, contentType)` from `src/utils/audioUtils.js`:
content-type evidence first (video ⇒ not audio, audio ⇒ audio), then the
extension fallback (audio-only extensions ⇒ audio; ambiguous or unknown
extensions ⇒ not audio). -/
def isAudioFile (filePath : String) (contentType : Option String) : Bool :=
  let ext := toLowerStr (extname filePath)
  match contentType with
  | some ct =>
    let normalizedContentType := toLowerStr ct
    if videoMimeTypes.any (fun t => substrIn t normalizedContentType) then false
    else if audioMimeTypes.any (fun t => substrIn t normalizedContentType) then true
    else if audioOnlyExtensions.contains ext then true
    else if ambiguousExtensions.contains ext then false
    else false
  | none =>
    if audioOnlyExtensions.contains ext then true
    else if ambiguousExtensions.contains ext then false
    else false

/-- Whether a supplied content type matches a known video MIME pattern
(`videoMimeTypes.some((type) => normalizedContentType.includes(type))`). -/
def matchesVideoMime (contentType : Option String) : Bool :=
  match contentType with
  | some ct => videoMimeTypes.any (fun t => substrIn t (toLowerStr ct))
  | none => false

/-- Whether a supplied content type matches a known audio MIME pattern. -/
def matchesAudioMime (contentType : Option String) : Bool :=
  match contentType with
  | some ct => audioMimeTypes.any (fun t => substrIn t (toLowerStr ct))
  | none => false

/-- The spec's `FileKind` enumeration. -/
inductive FileKind where
  | AudioOnly
  | NeedsExtraction
  deriving DecidableEq, Repr

/-- The spec's audio-only extension set, written in the order the spec
lists it (mp3, wav, m4a, flac, aac, ogg, mpga). -/
def specAudioOnlyExtensions : List String :=
  [".mp3", ".wav", ".m4a", ".flac", ".aac", ".ogg", ".mpga"]

/-- The spec's ambiguous extension set (mp4, mpeg, webm). -/
def specAmbiguousExtensions : List String :=
  [".mp4", ".mpeg", ".webm"]

/-- Modelled from the spec (§4.1): `classify(path, contentType)` follows the
five-step precedence — video MIME ⇒ NeedsExtraction, else audio MIME ⇒
AudioOnly, else audio-only extension ⇒ AudioOnly, else ambiguous extension ⇒
NeedsExtraction, else NeedsExtraction.  Stated separately from `isAudioFile`
so the precedence claim can be checked as a refinement. -/
def classify (filePath : String) (contentType : Option String) : FileKind :=
  if matchesVideoMime contentType then FileKind.NeedsExtraction
  else if matchesAudioMime contentType then FileKind.AudioOnly
  else if specAudioOnlyExtensions.contains (toLowerStr (extname filePath)) then FileKind.AudioOnly
  else if specAmbiguousExtensions.contains (toLowerStr (extname filePath)) then FileKind.NeedsExtraction
  else FileKind.NeedsExtraction

/-! ## Temp paths (`fileUtils.js`, `createTempPaths`) -/

/-- Model of `createTempPaths()` from `src/utils/fileUtils.js`: the downloaded input
is always stored at `input-<uniqueId>.webm` and the extraction output at
`output-<uniqueId>.mp3` under the temp directory (`path.join` modelled as
`/`-separated concatenation). -/
def createTempPaths (tempDir uniqueId : String) : String × String :=
  (tempDir ++ "/" ++ "input-" ++ uniqueId ++ ".webm",
   tempDir ++ "/" ++ "output-" ++ uniqueId ++ ".mp3")

/-! ## Size validation and duration estimate (`audioUtils.js`) -/

/-- Decimal digits of `n`, most significant first, with explicit fuel so the
definition is structural (the fuel `n + 1` always suffices). -/
def natDigitsAux : ℕ → ℕ → List ℕ
  | 0, _ => []
  | fuel + 1, n => if n < 10 then [n] else natDigitsAux fuel (n / 10) ++ [n % 10]

/-- Decimal digits of `n`, most significant first. -/
def natDigits (n : ℕ) : List ℕ :=
  natDigitsAux (n + 1) n

/-- The character for a decimal digit value. -/
def digitChar (d : ℕ) : Char :=
  Char.ofNat (48 + d)

/-- Decimal rendering of a natural number. -/
def natToStr (n : ℕ) : String :=
  String.mk ((natDigits n).map digitChar)

/-- Two-digit zero-padded rendering. -/
def pad2 (n : ℕ) : String :=
  if n < 10 then "0" ++ natToStr n else natToStr n

/-- Model of JavaScript `x.toFixed(2)` for the non-negative values this
code applies it to: round half up to two decimals and render
`<integer>.<two digits>`. -/
def toFixed2 (q : ℚ) : String :=
  natToStr ((⌊q * 100 + 1 / 2⌋).toNat / 100) ++ "." ++
    pad2 ((⌊q * 100 + 1 / 2⌋).toNat % 100)

/-- Model of `validateFileSize` from `src/utils/audioUtils.js`, on the file's size in
MB (the `fs.statSync` lookup is resolved by the caller): throws when the size
exceeds 25 MB, otherwise returns the size.  The rational model makes the
`isNaN` re-check unreachable. -/
def validateFileSize (sizeMB : ℚ) : Except String ℚ :=
  if sizeMB > 25 then
    Except.error ("Audio file is too large: " ++ toFixed2 sizeMB ++
      "MB. Maximum size is 25MB.")
  else
    Except.ok sizeMB

/-- Model of `estimateAudioDuration(sizeMB)` from `src/utils/audioUtils.js`:
`sizeMB > 0 ? (sizeMB / 10).toFixed(2) : "unknown"`. -/
def estimateAudioDuration (sizeMB : ℚ) : String :=
  if sizeMB > 0 then toFixed2 (sizeMB / 10) else "unknown"

/-! ## `parseFloat`

The route applies JavaScript's `parseFloat` to the estimated duration when
building the response.  We model the fragment of `parseFloat` those inputs
exercise: an optional minus sign, leading decimal digits, and an optional
fractional part; any string not starting that way yields `NaN`, modelled
as `none`. -/

/-- The numeric value of a digit character. -/
def digitVal (c : Char) : ℕ :=
  c.toNat - 48

/-- Consume leading decimal digits, accumulating their value. -/
def parseDigitsAux : List Char → ℕ → ℕ × List Char
  | [], acc => (acc, [])
  | c :: rest, acc =>
    if c.isDigit then parseDigitsAux rest (10 * acc + digitVal c)
    else (acc, c :: rest)

/-- Value of a digit-character list read as a decimal numeral. -/
def digitsToNat (cs : List Char) : ℕ :=
  cs.foldl (fun acc c => 10 * acc + digitVal c) 0

/-- Numeric value of a character list that starts with a digit: integer
part, then an optional `.`-separated fractional part. -/
def parseFloatVal (cs : List Char) : ℚ :=
  let p := parseDigitsAux cs 0
  match p.2 with
  | '.' :: fr =>
    let ds := fr.takeWhile Char.isDigit
    (p.1 : ℚ) + (digitsToNat ds : ℚ) / ((10 : ℚ) ^ ds.length)
  | _ => (p.1 : ℚ)

/-- Unsigned part of the `parseFloat` model: `NaN` (`none`) unless the
input starts with a digit. -/
def parseFloatPos (cs : List Char) : Option ℚ :=
  match cs with
  | [] => none
  | c :: _ => if c.isDigit then some (parseFloatVal cs) else none

/-- The `parseFloat` model on character lists: optional minus sign, then
an unsigned float. -/
def parseFloatChars (cs : List Char) : Option ℚ :=
  match cs with
  | [] => none
  | c :: t => if c = '-' then (parseFloatPos t).map Neg.neg else parseFloatPos (c :: t)

/-- Model of JavaScript `parseFloat`, restricted to the shapes produced by
`estimateAudioDuration`; `none` models `NaN`. -/
def parseFloat (s : String) : Option ℚ :=
  parseFloatChars s.data

/-! ## Sentiment analysis and summarization (`openaiUtils.js`)

The chat-completion call and the `JSON.parse` of its content are the only
effectful steps; both live inside the `try` block, so they are modelled
together as one oracle value: `Except.error m` is a provider error,
`Except.ok (none, tu)` a provider success whose content is not valid JSON
(`JSON.parse` throws), and `Except.ok (some d, tu)` a parsed response. -/

/-- Is a character JavaScript whitespace (the fragment relevant here). -/
def isSpaceChar (c : Char) : Bool :=
  c = ' ' || c = '\t' || c = '\n' || c = '\r'

/-- Model of `String.prototype.trim`. -/
def jsTrim (s : String) : String :=
  String.mk (((s.data.dropWhile isSpaceChar).reverse.dropWhile isSpaceChar).reverse)

/-- The fields `analyzeSentiment` reads off the parsed JSON object.  Absent
(or `null`) fields are `none`. -/
structure SentimentData where
  sentiment : Option String
  confidence : Option ℚ
  emotions : Option (List String)
  summary : Option String
  error : Option Bool
  deriving DecidableEq, Repr

/-- The object `analyzeSentiment` returns.  On success the initial result is
replaced by `{...sentimentData, processingTime, tokenUsage}`, so every field
other than `tokenUsage` comes from the parsed data (and may be absent);
`processingTime` is wall-clock and not modelled. -/
structure SentimentResult where
  sentiment : Option String
  confidence : Option ℚ
  emotions : Option (List String)
  summary : Option String
  tokenUsage : TokenUsage
  error : Option Bool
  deriving DecidableEq, Repr

/-- The catch-block result of `analyzeSentiment`: the initial result object
with `error`, `sentiment`, `confidence`, `emotions` and `summary` overwritten
by the fixed fallback values (its `tokenUsage` is still the initial zeros —
the usage is only copied after a successful parse). -/
def sentimentFallback : SentimentResult :=
  { sentiment := some "neutral"
    confidence := some 0
    emotions := some []
    summary := some "Sentiment analysis could not be completed"
    tokenUsage := ⟨0, 0, 0⟩
    error := some true }

/-- Model of `analyzeSentiment(text)` from `src/utils/openaiUtils.js`. -/
def analyzeSentiment (text : String)
    (call : Except String (Option SentimentData × TokenUsage)) : SentimentResult :=
  match call with
  | Except.ok (some d, tu) =>
    { sentiment := d.sentiment
      confidence := d.confidence
      emotions := d.emotions
      summary := d.summary
      tokenUsage := tu
      error := d.error }
  | Except.ok (none, _) => sentimentFallback
  | Except.error _ => sentimentFallback

/-- The object `generateSummary` returns. -/
structure SummaryResult where
  summary : String
  tokenUsage : TokenUsage
  error : Bool
  deriving DecidableEq, Repr

/-- Model of `generateSummary(text, customPrompt)` from `src/utils/openaiUtils.js`:
the summarization call has no JSON shape (`content.trim()` is the summary),
so the oracle is the provider outcome carrying the raw content. -/
def generateSummary (text : String) (customPrompt : Option String)
    (call : Except String (String × TokenUsage)) : SummaryResult :=
  match call with
  | Except.ok (content, tu) =>
    { summary := jsTrim content, tokenUsage := tu, error := false }
  | Except.error _ =>
    { summary := "Summarization could not be completed due to an error."
      tokenUsage := ⟨0, 0, 0⟩
      error := true }

/-! ## Temp-file cleanup (`fileUtils.js`, `cleanupFiles`) -/

/-- The temp area of the filesystem: which paths currently hold a file. -/
def FS : Type := String → Bool

/-- Record a file as present at `p`. -/
def setFile (fs : FS) (p : String) : FS :=
  fun q => if q = p then true else fs q

/-- One entry of the list `cleanupFiles` returns (`sizeBytes` and the error
message are logging-only and not modelled). -/
structure CleanedFile where
  path : String
  cleaned : Bool
  deriving DecidableEq, Repr

/-- Model of `cleanupFiles(filePaths)` from `src/utils/fileUtils.js`, with the
filesystem passed explicitly and `unlinkOk p` the outcome of
`fs.unlinkSync(p)`: a path with no file is skipped silently, a successful
unlink removes the file and reports `cleaned: true`, a failed unlink leaves
the file and reports `cleaned: false`; the function itself never throws. -/
def cleanupFiles (unlinkOk : String → Bool) :
    List String → FS → List CleanedFile × FS
  | [], fs => ([], fs)
  | p :: rest, fs =>
    if fs p then
      if unlinkOk p then
        let r := cleanupFiles unlinkOk rest (fun q => if q = p then false else fs q)
        ({ path := p, cleaned := true } :: r.1, r.2)
      else
        let r := cleanupFiles unlinkOk rest fs
        ({ path := p, cleaned := false } :: r.1, r.2)
    else
      cleanupFiles unlinkOk rest fs

/-! ## The transcription route (`src/routes/transcribe.js`)

The handler is embedded as a function from an environment of external
outcomes to a trace of observable steps (cleanup calls and the single
emitted response) together with the final temp-file state.  Every throwing
step inside the route's `try` block maps to an `Except` oracle; the two
early validation failures map to the direct `return res.status(...)`
calls before any temp path is allocated. -/

/-- The 200-response fields the claims are about.  `estimatedDurationMinutes`
is `parseFloat(estimateAudioDuration(outputSizeMB))`; `none` models `NaN`. -/
structure SuccessBody where
  fileWasAudio : Bool
  transcription : String
  sentiment : SentimentResult
  summary : String
  audioSizeMB : ℚ
  estimatedDurationMinutes : Option ℚ

/-- The responses the route can emit. -/
inductive Response where
  | badRequest (msg : String)
  | configError (msg : String)
  | serverError (msg : String)
  | success (body : SuccessBody)

/-- An observable step of the request handler. -/
inductive Event where
  | cleanupCall (paths : List String) (results : List CleanedFile)
  | respond (r : Response)

/-- The environment of one request: the request body and the outcome of
every external step the route can hit.  `download` carries the downloaded
size in MB and the response's content type; `downloadWritesFile` says
whether the streaming write created the input file before a failed
download rejected. -/
structure Env where
  url : Option String
  apiKeySet : Bool
  ffmpegPath : Option String
  download : Except String (ℚ × Option String)
  downloadWritesFile : Bool
  extraction : Except String ℚ
  transcription : Except String String
  sentimentCall : Except String (Option SentimentData × TokenUsage)
  summaryCall : Except String (String × TokenUsage)
  summarizationPrompt : Option String

/-- The route's `catch` block: clean up both temp paths (both are non-null
once allocation has happened), then emit the 500 error response. -/
def transcribeCatch (unlinkOk : String → Bool) (inputPath outputPath : String)
    (msg : String) (fs : FS) : List Event × FS :=
  let r := cleanupFiles unlinkOk [inputPath, outputPath] fs
  ([Event.cleanupCall [inputPath, outputPath] r.1,
    Event.respond (Response.serverError msg)], r.2)

/-- Steps 4–7 of the route: transcribe, run sentiment and summary (which
never throw), clean up (`fileIsAudio ? [tempInputPath] : [tempInputPath,
tempOutputPath]`), and emit the 200 response. -/
def transcribeFinish (inputPath outputPath : String) (env : Env)
    (unlinkOk : String → Bool) (fs : FS) (fileIsAudio : Bool)
    (outputSizeMB : ℚ) : List Event × FS :=
  match env.transcription with
  | Except.error msg => transcribeCatch unlinkOk inputPath outputPath msg fs
  | Except.ok text =>
    let sentimentResult := analyzeSentiment text env.sentimentCall
    let summaryResult := generateSummary text env.summarizationPrompt env.summaryCall
    let body : SuccessBody :=
      { fileWasAudio := fileIsAudio
        transcription := text
        sentiment := sentimentResult
        summary := summaryResult.summary
        audioSizeMB := outputSizeMB
        estimatedDurationMinutes := parseFloat (estimateAudioDuration outputSizeMB) }
    let paths := if fileIsAudio then [inputPath] else [inputPath, outputPath]
    let r := cleanupFiles unlinkOk paths fs
    ([Event.cleanupCall paths r.1, Event.respond (Response.success body)], r.2)

/-- Step 3 of the route, after a successful download wrote the input file:
classify with `isAudioFile`; on the audio path validate the downloaded
file's size, on the video path require FFmpeg and run extraction (which
writes the output file).  The extraction path performs no size validation
(the route's comment claims the extraction result was already validated,
but `extractAudioFromVideo` only reports sizes). -/
def transcribeAfterDownload (inputPath outputPath : String) (env : Env)
    (unlinkOk : String → Bool) (fs : FS) (inputSizeMB : ℚ)
    (contentType : Option String) : List Event × FS :=
  let fileIsAudio := isAudioFile inputPath contentType
  if fileIsAudio then
    match validateFileSize inputSizeMB with
    | Except.error msg => transcribeCatch unlinkOk inputPath outputPath msg fs
    | Except.ok outputSizeMB =>
      transcribeFinish inputPath outputPath env unlinkOk fs true outputSizeMB
  else
    match env.ffmpegPath with
    | none =>
      transcribeCatch unlinkOk inputPath outputPath
        "FFmpeg is not installed or not found." fs
    | some _ =>
      match env.extraction with
      | Except.error msg => transcribeCatch unlinkOk inputPath outputPath msg fs
      | Except.ok outputSizeMB =>
        transcribeFinish inputPath outputPath env unlinkOk
          (setFile fs outputPath) false outputSizeMB

/-- The `POST /api/transcribe` handler from `src/routes/transcribe.js`:
validate the URL and the API key (direct 4xx/5xx returns, no temp paths
yet), then allocate temp paths, download, and continue; every later
failure lands in the `catch` block, which cleans up before responding. -/
def transcribeHandler (inputPath outputPath : String) (env : Env)
    (unlinkOk : String → Bool) (fs0 : FS) : List Event × FS :=
  match env.url with
  | none =>
    ([Event.respond (Response.badRequest "URL is required and must be a string")], fs0)
  | some _ =>
    if env.apiKeySet then
      match env.download with
      | Except.error msg =>
        transcribeCatch unlinkOk inputPath outputPath msg
          (if env.downloadWritesFile then setFile fs0 inputPath else fs0)
      | Except.ok (inputSizeMB, contentType) =>
        transcribeAfterDownload inputPath outputPath env unlinkOk
          (setFile fs0 inputPath) inputSizeMB contentType
    else
      ([Event.respond
          (Response.configError "Server configuration error: OpenAI API key not set")], fs0)

/-- The response a trace emits (its final event). -/
def responseOf (tr : List Event) : Option Response :=
  match tr.getLast? with
  | some (Event.respond r) => some r
  | _ => none

/-- The `metadata.tokenUsage.whisper.estimatedDurationMinutes` field of a
response, when the response is a 200. -/
def estimatedOfResponse (r : Response) : Option (Option ℚ) :=
  match r with
  | Response.success body => some body.estimatedDurationMinutes
  | _ => none

/-! ## Frame sampling (`videoUtils.js`, `extractFrames`)

The probe result is `some d` when ffprobe reported a duration and `none`
when both duration fields were missing (`parsed` falls back to `0`); a
probe *error* rejects the whole call and is outside this function.  Only
the timestamp schedule is modelled; the per-timestamp grab is external. -/

/-- The sampled timestamps of `extractFrames(videoPath, outputDir,
{intervalSeconds, maxFrames})`: `frameCount = min(maxFrames, max(0,
ceil(duration / interval)))` when the duration is positive (else one
fallback frame), timestamps `i * interval` (0 when no duration), with the
loop breaking at the first timestamp ≥ duration. -/
def extractFrameTimestamps (duration : Option ℚ) (intervalSeconds : ℚ)
    (maxFrames : ℕ) : List ℚ :=
  ((List.range
      (if 0 < duration.getD 0 then
        min maxFrames (Int.toNat ⌈duration.getD 0 / intervalSeconds⌉)
      else 1)).takeWhile (fun i : ℕ =>
        !(decide (0 < duration.getD 0) &&
          decide (duration.getD 0 ≤ (i : ℚ) * intervalSeconds)))).map
    (fun i : ℕ => if 0 < duration.getD 0 then (i : ℚ) * intervalSeconds else 0)

/-! ## Per-frame vision analysis (`videoUtils.js`, `analyzeVideoContent`) -/

/-- The `people` object of a parsed frame analysis. -/
structure PeopleInfo where
  count : Option ℕ
  details : Option (List String)
  deriving DecidableEq, Repr

/-- The `location` object of a parsed frame analysis. -/
structure LocationInfo where
  type : Option String
  description : Option String
  deriving DecidableEq, Repr

/-- The fields of a parsed per-frame JSON analysis that the aggregator
reads; absent (or non-array, for the arrays) fields are `none`. -/
structure Analysis where
  people : Option PeopleInfo
  activities : Option (List String)
  location : Option LocationInfo
  objects : Option (List String)
  deriving DecidableEq, Repr

/-- One entry of `frameAnalyses`. -/
structure FrameAnalysis where
  frameIndex : ℕ
  timestamp : ℚ
  analysis : Option Analysis
  tokenUsage : TokenUsage
  deriving DecidableEq, Repr

/-- The frame-analysis loop of `analyzeVideoContent`: each frame's
base64-encode / vision call / `JSON.parse` all sit in one `try`, modelled
by `frameCall i`; a failing frame is logged and skipped, a successful one
is pushed with its index, timestamp `i * intervalSeconds` and usage. -/
def analyzeVideoFrames (frameCall : ℕ → Except String (Analysis × TokenUsage))
    (intervalSeconds : ℚ) (frameCount : ℕ) : List FrameAnalysis :=
  (List.range frameCount).filterMap (fun i =>
    match frameCall i with
    | Except.ok (a, tu) =>
      some { frameIndex := i, timestamp := (i : ℚ) * intervalSeconds,
             analysis := some a, tokenUsage := tu }
    | Except.error _ => none)

/-! ## Aggregation (`videoUtils.js`, `aggregateFrameAnalyses`) -/

/-- Model of the `fa.analysis || ...` default (an absent analysis reads as the empty object). -/
def analysisOf (fa : FrameAnalysis) : Analysis :=
  fa.analysis.getD { people := none, activities := none, location := none, objects := none }

/-- Model of `frameAnalyses.map((fa) => fa.analysis?.people?.count || 0).filter((count)
=> count !== null && count !== undefined)`: the `|| 0` default runs first, so
the filter sees only numbers and keeps everything. -/
def peopleCountsOf (frameAnalyses : List FrameAnalysis) : List ℕ :=
  (frameAnalyses.map (fun fa =>
      ((fa.analysis.bind (fun a => a.people)).bind (fun p => p.count)).getD 0)).filter
    (fun _ => true)

/-- JavaScript `a || b` on two possibly-absent strings (the empty string is
falsy). -/
def jsOrStr (a b : Option String) : Option String :=
  match a with
  | some s => if s = "" then b else some s
  | none => b

/-- Model of `analysis.location.type || analysis.location.description`, coerced to the
string key it becomes in the frequency table (`undefined` coerces to the key
`"undefined"`). -/
def locationValue (l : LocationInfo) : String :=
  match jsOrStr l.type l.description with
  | some s => s
  | none => "undefined"

/-- The `allLocations` array: one value per frame whose analysis has a
(truthy) `location` object. -/
def allLocationsOf (frameAnalyses : List FrameAnalysis) : List String :=
  frameAnalyses.filterMap (fun fa =>
    ((analysisOf fa).location).map locationValue)

/-- Insertion-ordered deduplication: the key order of a JavaScript object
populated left to right (for non-numeric string keys), and equally the
iteration order of a `Set`. -/
def objectKeys (l : List String) : List String :=
  l.foldl (fun acc x => if x ∈ acc then acc else acc ++ [x]) []

/-- Model of `Object.keys(locationFrequency).reduce((a, b) => locationFrequency[a] >
locationFrequency[b] ? a : b, "unknown")`: the frequency of a key is its
count in `allLocations` (a missing key — the initial `"unknown"` — reads as
`undefined`, which compares as never-greater, exactly like count 0 here). -/
def mostCommonLocation (allLocations : List String) : String :=
  (objectKeys allLocations).foldl
    (fun a b => if allLocations.count a > allLocations.count b then a else b)
    "unknown"

/-- Model of `Math.min(...l)` over a list known non-empty at every call site (the
empty case would be `Infinity` in JavaScript and is unreachable here). -/
def listMinD (l : List ℕ) : ℕ :=
  match l with
  | [] => 0
  | h :: t => t.foldl Nat.min h

/-- Model of `Math.max(...l)`, same remark as `listMinD`. -/
def listMaxD (l : List ℕ) : ℕ :=
  match l with
  | [] => 0
  | h :: t => t.foldl Nat.max h

/-- The `activities` Set, in insertion order. -/
def activitiesOf (frameAnalyses : List FrameAnalysis) : List String :=
  objectKeys ((frameAnalyses.map (fun fa => ((analysisOf fa).activities).getD [])).flatten)

/-- The `objects` Set, in insertion order. -/
def objectsOf (frameAnalyses : List FrameAnalysis) : List String :=
  objectKeys ((frameAnalyses.map (fun fa => ((analysisOf fa).objects).getD [])).flatten)

/-- The concatenated `people.details` arrays. -/
def peopleDetailsOf (frameAnalyses : List FrameAnalysis) : List String :=
  (frameAnalyses.map (fun fa =>
    (((analysisOf fa).people).bind (fun p => p.details)).getD [])).flatten

/-- The aggregated result.  The zero-analyses early return produces an
object without `locations.mostCommon` and `peopleDetails` fields, hence the
`Option` types for those two. -/
structure AggregatedAnalysis where
  peopleCountMin : ℕ
  peopleCountMax : ℕ
  peopleCountAverage : ℚ
  activities : List String
  locationsAll : List String
  locationsMostCommon : Option String
  commonObjects : List String
  peopleDetails : Option (List String)
  deriving DecidableEq, Repr

/-- Model of `aggregateFrameAnalyses(frameAnalyses)` from `src/utils/videoUtils.js`. -/
def aggregateFrameAnalyses (frameAnalyses : List FrameAnalysis) : AggregatedAnalysis :=
  match frameAnalyses with
  | [] =>
    { peopleCountMin := 0, peopleCountMax := 0, peopleCountAverage := 0,
      activities := [], locationsAll := [], locationsMostCommon := none,
      commonObjects := [], peopleDetails := none }
  | _ :: _ =>
    let peopleCounts := peopleCountsOf frameAnalyses
    let allLocations := allLocationsOf frameAnalyses
    { peopleCountMin := listMinD peopleCounts
      peopleCountMax := listMaxD peopleCounts
      peopleCountAverage :=
        ((peopleCounts.map (fun n => (n : ℚ))).sum) / (peopleCounts.length : ℚ)
      activities := activitiesOf frameAnalyses
      locationsAll := objectKeys allLocations
      locationsMostCommon := some (mostCommonLocation allLocations)
      commonObjects := objectsOf frameAnalyses
      peopleDetails := some (peopleDetailsOf frameAnalyses) }

/-! ## Theorems -/

/-- The spec's audio-only extension set and the code's contain the same
extensions (they are listed in different orders). -/
lemma specAudioOnly_contains (e : String) :
    specAudioOnlyExtensions.contains e = audioOnlyExtensions.contains e := by
  simp only [List.contains, List.elem_eq_mem]
  exact decide_eq_decide.mpr
    (by simp only [specAudioOnlyExtensions, audioOnlyExtensions, List.mem_cons,
          List.not_mem_nil, or_false]; tauto)

/-- The spec's ambiguous extension set is the code's. -/
lemma specAmbiguous_contains (e : String) :
    specAmbiguousExtensions.contains e = ambiguousExtensions.contains e := rfl

/-- C2: for every file path and content type, the classifier follows exactly
the five-step precedence: video MIME ⇒ NeedsExtraction, else audio MIME ⇒
AudioOnly, else audio-only extension ⇒ AudioOnly, else ambiguous extension ⇒
NeedsExtraction, else NeedsExtraction — i.e. the spec's `classify` coincides
with the code's `isAudioFile`. -/
theorem classify_follows_precedence (filePath : String) (contentType : Option String) :
    classify filePath contentType =
      (if isAudioFile filePath contentType then FileKind.AudioOnly
       else FileKind.NeedsExtraction) := by
  cases contentType with
  | none =>
    simp only [classify, isAudioFile, matchesVideoMime, matchesAudioMime,
      specAudioOnly_contains, specAmbiguous_contains, Bool.false_eq_true, if_false]
    split_ifs <;> simp_all
  | some ct =>
    simp only [classify, isAudioFile, matchesVideoMime, matchesAudioMime,
      specAudioOnly_contains, specAmbiguous_contains]
    split_ifs <;> simp_all

/-- For a positive interval, every index below `⌈d / iv⌉` puts its timestamp
strictly below the duration. -/
lemma timestamp_lt_duration {d iv : ℚ} (hiv : 0 < iv) {i : ℕ}
    (hi : (i : ℤ) < ⌈d / iv⌉) : (i : ℚ) * iv < d := by
  have h1 : (i : ℚ) < d / iv := by exact_mod_cast Int.lt_ceil.mp hi
  calc (i : ℚ) * iv < (d / iv) * iv := by
        exact mul_lt_mul_of_pos_right h1 hiv
    _ = d := div_mul_cancel₀ d (ne_of_gt hiv)

/-- C6: for a finite positive probed duration, frame sampling produces
exactly `min maxFrames ⌈duration / interval⌉` frames at timestamps
`0, interval, 2·interval, …`, all strictly below the duration; a 37-second
video with interval 5 and maxFrames 6 yields `[0, 5, 10, 15, 20, 25]`; and
an unavailable or non-positive duration yields exactly one sample at
timestamp 0. -/
theorem extractFrames_schedule :
    (∀ (d iv : ℚ) (maxFrames : ℕ), 0 < d → 0 < iv →
      extractFrameTimestamps (some d) iv maxFrames
        = (List.range (min maxFrames (Int.toNat ⌈d / iv⌉))).map (fun i : ℕ => (i : ℚ) * iv)
      ∧ ∀ t ∈ extractFrameTimestamps (some d) iv maxFrames, t < d)
    ∧ extractFrameTimestamps (some 37) 5 6 = [0, 5, 10, 15, 20, 25]
    ∧ (∀ (d : Option ℚ) (iv : ℚ) (maxFrames : ℕ), d.getD 0 ≤ 0 →
        extractFrameTimestamps d iv maxFrames = [0]) := by
  have main : ∀ (d iv : ℚ) (maxFrames : ℕ), 0 < d → 0 < iv →
      extractFrameTimestamps (some d) iv maxFrames
        = (List.range (min maxFrames (Int.toNat ⌈d / iv⌉))).map (fun i : ℕ => (i : ℚ) * iv) := by
    intro d iv maxFrames hd hiv
    have hall : ∀ i ∈ List.range (min maxFrames (Int.toNat ⌈d / iv⌉)),
        (!(decide (0 < d) && decide (d ≤ (i : ℚ) * iv))) = true := by
      intro i hi
      have hilt : i < Int.toNat ⌈d / iv⌉ :=
        lt_of_lt_of_le (List.mem_range.mp hi) (min_le_right _ _)
      have hceil : (i : ℤ) < ⌈d / iv⌉ := Int.lt_toNat.mp hilt
      have hlt : (i : ℚ) * iv < d := timestamp_lt_duration hiv hceil
      simp [not_le.mpr hlt]
    simp only [extractFrameTimestamps, Option.getD_some, if_pos hd,
      List.takeWhile_eq_self_iff.mpr hall]
  refine ⟨fun d iv maxFrames hd hiv => ⟨main d iv maxFrames hd hiv, ?_⟩, ?_, ?_⟩
  · intro t ht
    rw [main d iv maxFrames hd hiv] at ht
    obtain ⟨i, hi, rfl⟩ := List.mem_map.mp ht
    have hilt : i < Int.toNat ⌈d / iv⌉ :=
      lt_of_lt_of_le (List.mem_range.mp hi) (min_le_right _ _)
    exact timestamp_lt_duration hiv (Int.lt_toNat.mp hilt)
  · rw [main 37 5 6 (by norm_num) (by norm_num)]
    have hceil : ⌈(37 : ℚ) / 5⌉ = 8 := by
      norm_num [Int.ceil_eq_iff]
    rw [hceil]
    norm_num [List.range_succ]
  · intro d iv maxFrames h
    have hfalse : ¬(0 < d.getD 0) := not_lt.mpr h
    simp [extractFrameTimestamps, hfalse]
    decide

/-- Witness for `extractFrames_schedule` at the spec's 37-second example. -/
theorem extractFrames_schedule_witness :
    extractFrameTimestamps (some 37) 5 6
      = (List.range (min 6 (Int.toNat ⌈(37 : ℚ) / 5⌉))).map (fun i : ℕ => (i : ℚ) * 5) :=
  (extractFrames_schedule.1 37 5 6 (by decide) (by decide)).1

/-- C9: if among `K` sampled frames the vision analysis of exactly one frame
fails, the batch loop still returns (it never rethrows), the resulting
`frameAnalyses` has exactly `K - 1` entries, and every other frame's analysis
is still present. -/
theorem frame_failure_omitted :
    ∀ (frameCall : ℕ → Except String (Analysis × TokenUsage)) (iv : ℚ) (K i : ℕ)
      (m : String),
      i < K → frameCall i = Except.error m →
      (∀ j, j < K → j ≠ i → ∃ r, frameCall j = Except.ok r) →
      (analyzeVideoFrames frameCall iv K).length = K - 1
      ∧ ∀ j, j < K → j ≠ i →
          ∃ fa ∈ analyzeVideoFrames frameCall iv K, fa.frameIndex = j := by
  intro frameCall iv K i m hi herr hok
  constructor
  · rw [analyzeVideoFrames, List.length_filterMap_eq_countP]
    have hcongr : (List.range K).countP (fun j =>
        (match frameCall j with
          | Except.ok (a, tu) =>
            some { frameIndex := j, timestamp := (j : ℚ) * iv,
                   analysis := some a, tokenUsage := tu }
          | Except.error _ => none : Option FrameAnalysis).isSome)
        = (List.range K).countP (fun j => decide ¬((j == i) = true)) := by
      apply List.countP_congr
      intro j hj
      rcases eq_or_ne j i with rfl | hne
      · rw [herr]
        simp
      · obtain ⟨⟨a, tu⟩, hr⟩ := hok j (List.mem_range.mp hj) hne
        rw [hr]
        simp [hne]
    rw [hcongr]
    have hsplit := List.length_eq_countP_add_countP (fun j => j == i) (List.range K)
    have hcount : (List.range K).countP (fun j => j == i) = 1 :=
      List.count_eq_one_of_mem (List.nodup_range K) (List.mem_range.mpr hi)
    rw [List.length_range] at hsplit
    omega
  · intro j hj hne
    obtain ⟨⟨a, tu⟩, hr⟩ := hok j hj hne
    refine ⟨{ frameIndex := j, timestamp := (j : ℚ) * iv,
              analysis := some a, tokenUsage := tu }, ?_, rfl⟩
    rw [analyzeVideoFrames]
    exact List.mem_filterMap.mpr ⟨j, List.mem_range.mpr hj, by rw [hr]⟩

/-- A concrete batch of three frame calls whose middle frame fails. -/
def frameCallW : ℕ → Except String (Analysis × TokenUsage) :=
  fun j =>
    if j = 1 then Except.error "boom"
    else Except.ok ({ people := none, activities := none, location := none,
                      objects := none }, ⟨1, 1, 2⟩)

/-- Witness for `frame_failure_omitted`: one failure among three frames
leaves exactly two entries. -/
theorem frame_failure_omitted_witness :
    (analyzeVideoFrames frameCallW 5 3).length = 3 - 1 :=
  (frame_failure_omitted frameCallW 5 3 1 "boom" (by decide) rfl
    (fun j hj hne =>
      ⟨({ people := none, activities := none, location := none,
          objects := none }, ⟨1, 1, 2⟩), by simp [frameCallW, hne]⟩)).1

/-- C5: `analyzeSentiment` and `generateSummary` never raise to their caller
(they are total functions of the provider outcome); on a provider error or a
malformed (non-JSON) response, `analyzeSentiment` returns exactly the
degraded fallback value (`neutral`, confidence 0, empty emotions,
`error: true`) with a non-null fallback summary string, and on a provider
error `generateSummary` returns `error: true` with its non-null fallback
summary string. -/
theorem enrichment_degrades :
    (∀ (text : String) (call : Except String (Option SentimentData × TokenUsage)),
      ((∃ m, call = Except.error m) ∨ ∃ tu, call = Except.ok (none, tu)) →
      analyzeSentiment text call = sentimentFallback
      ∧ (analyzeSentiment text call).sentiment = some "neutral"
      ∧ (analyzeSentiment text call).confidence = some 0
      ∧ (analyzeSentiment text call).emotions = some []
      ∧ (analyzeSentiment text call).error = some true
      ∧ (analyzeSentiment text call).summary ≠ none)
    ∧ (∀ (text : String) (customPrompt : Option String) (m : String),
        (generateSummary text customPrompt (Except.error m)).error = true
        ∧ (generateSummary text customPrompt (Except.error m)).summary
            = "Summarization could not be completed due to an error.") := by
  constructor
  · intro text call h
    have hfb : analyzeSentiment text call = sentimentFallback := by
      rcases h with ⟨m, rfl⟩ | ⟨tu, rfl⟩ <;> rfl
    rw [hfb]
    exact ⟨rfl, rfl, rfl, rfl, rfl, by simp [sentimentFallback]⟩
  · intro text customPrompt m
    exact ⟨rfl, rfl⟩

/-- Witness for `enrichment_degrades` at concrete provider errors. -/
theorem enrichment_degrades_witness :
    analyzeSentiment "hello" (Except.error "boom") = sentimentFallback
    ∧ (generateSummary "hello" none (Except.error "boom")).error = true :=
  ⟨(enrichment_degrades.1 "hello" (Except.error "boom") (Or.inl ⟨"boom", rfl⟩)).1,
   (enrichment_degrades.2 "hello" none "boom").1⟩

/-- The function `takeWhile` passes over a block all of whose elements satisfy the
predicate. -/
lemma takeWhile_append_of_all {α : Type} (p : α → Bool) {l₁ l₂ : List α}
    (h : ∀ c ∈ l₁, p c = true) :
    (l₁ ++ l₂).takeWhile p = l₁ ++ l₂.takeWhile p := by
  induction l₁ with
  | nil => simp
  | cons c t ih =>
    simp only [List.cons_append, List.takeWhile_cons, h c (by simp)]
    rw [ih (fun x hx => h x (by simp [hx]))]
    simp

/-- Taking from the reversed list up to the last occurrence of a separator:
if `l₂` (the part after the last `c`) is separator-free, the reversed
`takeWhile` returns exactly `l₂.reverse`. -/
lemma reverse_takeWhile_after_sep {α : Type} (p : α → Bool) (l₁ l₂ : List α)
    (c : α) (hc : p c = false) (h : ∀ x ∈ l₂, p x = true) :
    ((l₁ ++ c :: l₂).reverse).takeWhile p = l₂.reverse := by
  rw [List.reverse_append, List.reverse_cons, List.append_assoc,
    takeWhile_append_of_all p (fun x hx => h x (List.mem_reverse.mp hx))]
  simp [List.takeWhile_cons, hc]

/-- The characters of the generated input path. -/
lemma inputPath_data (tempDir uniqueId : String) :
    (createTempPaths tempDir uniqueId).1.data
      = tempDir.data ++ '/' :: (['i', 'n', 'p', 'u', 't', '-'] ++ uniqueId.data
          ++ ['.', 'w', 'e', 'b', 'm']) := by
  simp [createTempPaths, String.data_append]

/-- The generated input path always carries the `.webm` extension, whatever
the unique id (as long as it contains no path separator). -/
lemma extname_inputPath (tempDir uniqueId : String)
    (h : ∀ c ∈ uniqueId.data, c ≠ '/') :
    extname (createTempPaths tempDir uniqueId).1 = ".webm" := by
  have hbase : ((createTempPaths tempDir uniqueId).1.data.reverse.takeWhile
        (fun c => c ≠ '/')).reverse
      = ['i', 'n', 'p', 'u', 't', '-'] ++ uniqueId.data ++ ['.', 'w', 'e', 'b', 'm'] := by
    rw [inputPath_data,
      reverse_takeWhile_after_sep (fun c => decide (c ≠ '/')) tempDir.data _ '/'
        (by simp)
        (List.forall_mem_append.mpr
          ⟨List.forall_mem_append.mpr
            ⟨by decide, fun x hx => by simpa using h x hx⟩, by decide⟩),
      List.reverse_reverse]
  rw [extname, hbase]
  have hafter : ((['i', 'n', 'p', 'u', 't', '-'] ++ uniqueId.data
        ++ ['.', 'w', 'e', 'b', 'm']).reverse).takeWhile (fun c => c ≠ '.')
      = ['w', 'e', 'b', 'm'].reverse := by
    have hsplit : ['i', 'n', 'p', 'u', 't', '-'] ++ uniqueId.data
        ++ ['.', 'w', 'e', 'b', 'm']
        = (['i', 'n', 'p', 'u', 't', '-'] ++ uniqueId.data) ++ '.' :: ['w', 'e', 'b', 'm'] := by
      simp
    rw [hsplit,
      reverse_takeWhile_after_sep (fun c => decide (c ≠ '.')) _ _ '.' (by simp)
        (by decide)]
  rw [hafter]
  have hlen : (['i', 'n', 'p', 'u', 't', '-'] ++ uniqueId.data
      ++ ['.', 'w', 'e', 'b', 'm']).length = uniqueId.data.length + 11 := by
    simp only [List.length_append, List.length_cons, List.length_nil]
    omega
  rw [hlen]
  have h4 : (['w', 'e', 'b', 'm'].reverse : List Char).length = 4 := by decide
  rw [h4]
  rw [if_neg (by omega), if_neg (by omega)]
  decide

/-- C4: the downloaded file is always stored at a generated temp path ending
in `.webm` regardless of the source URL, so the classifier always sees the
ambiguous `.webm` extension and its decision is a function of the HTTP
content type alone (`audio MIME ∧ ¬ video MIME`); in particular, whenever the
server supplies no audio content type, `fileIsAudio` is `false` and the
request takes the extraction path. -/
theorem downloaded_webm_classification :
    ∀ (tempDir uniqueId : String) (contentType : Option String),
      (∀ c ∈ uniqueId.data, c ≠ '/') →
      (createTempPaths tempDir uniqueId).1
          = (tempDir ++ "/" ++ "input-" ++ uniqueId) ++ ".webm"
      ∧ isAudioFile (createTempPaths tempDir uniqueId).1 contentType
          = (matchesAudioMime contentType && !matchesVideoMime contentType)
      ∧ (matchesAudioMime contentType = false →
          isAudioFile (createTempPaths tempDir uniqueId).1 contentType = false) := by
  intro tempDir uniqueId contentType h
  have hext : extname (createTempPaths tempDir uniqueId).1 = ".webm" :=
    extname_inputPath tempDir uniqueId h
  have hnota : toLowerStr ".webm" ∉ audioOnlyExtensions := by decide
  have hmain : isAudioFile (createTempPaths tempDir uniqueId).1 contentType
      = (matchesAudioMime contentType && !matchesVideoMime contentType) := by
    cases contentType with
    | none => simp [isAudioFile, hext, matchesAudioMime, matchesVideoMime, hnota]
    | some ct =>
      simp only [isAudioFile, hext, matchesAudioMime, matchesVideoMime]
      cases hv : videoMimeTypes.any (fun t => substrIn t (toLowerStr ct)) <;>
        cases ha : audioMimeTypes.any (fun t => substrIn t (toLowerStr ct)) <;>
          simp [hv, ha, hnota]
  exact ⟨rfl, hmain, fun hma => by rw [hmain, hma]; rfl⟩

/-- Witness for `downloaded_webm_classification`: a concrete download with a
`text/html` content type (no audio MIME) lands on the extraction path even
though the URL ended in `.mp3`. -/
theorem downloaded_webm_classification_witness :
    isAudioFile (createTempPaths "/tmp" "17-abc").1 (some "text/html") = false :=
  (downloaded_webm_classification "/tmp" "17-abc" (some "text/html")
    (by decide)).2.2 (by decide)

/-- Every entry `cleanupFiles` reports corresponds to a path that actually
held a file (missing files are skipped without error). -/
lemma cleanupFiles_result_exists (u : String → Bool) :
    ∀ (paths : List String) (fs : FS) (c : CleanedFile),
      c ∈ (cleanupFiles u paths fs).1 → fs c.path = true := by
  intro paths
  induction paths with
  | nil => intro fs c hc; simp [cleanupFiles] at hc
  | cons p rest ih =>
    intro fs c hc
    by_cases hp : fs p = true
    · by_cases hu : u p = true
      · rw [cleanupFiles, if_pos hp, if_pos hu] at hc
        rcases List.mem_cons.mp hc with rfl | hc
        · exact hp
        · have := ih (fun q => if q = p then false else fs q) c hc
          by_cases hq : c.path = p
          · simp [hq] at this
          · simpa [hq] using this
      · rw [cleanupFiles, if_pos hp, if_neg hu] at hc
        rcases List.mem_cons.mp hc with rfl | hc
        · exact hp
        · exact ih fs c hc
    · rw [cleanupFiles, if_neg hp] at hc
      exact ih fs c hc

/-- The function `cleanupFiles` never creates a file. -/
lemma cleanupFiles_mono (u : String → Bool) :
    ∀ (paths : List String) (fs : FS) (p : String),
      fs p = false → (cleanupFiles u paths fs).2 p = false := by
  intro paths
  induction paths with
  | nil => intro fs p h; exact h
  | cons q rest ih =>
    intro fs p h
    rw [cleanupFiles]
    by_cases hq : fs q = true
    · rw [if_pos hq]
      by_cases hu : u q = true
      · rw [if_pos hu]
        exact ih _ p (by by_cases hpq : p = q <;> simp [hpq, h])
      · rw [if_neg hu]
        exact ih fs p h
    · rw [if_neg hq]
      exact ih fs p h

/-- The function `cleanupFiles` leaves paths it was not asked about untouched. -/
lemma cleanupFiles_not_mem (u : String → Bool) :
    ∀ (paths : List String) (fs : FS) (p : String),
      p ∉ paths → (cleanupFiles u paths fs).2 p = fs p := by
  intro paths
  induction paths with
  | nil => intro fs p _; rfl
  | cons q rest ih =>
    intro fs p h
    have hpq : p ≠ q := fun heq => h (by simp [heq])
    have hrest : p ∉ rest := fun hmem => h (by simp [hmem])
    rw [cleanupFiles]
    by_cases hq : fs q = true
    · rw [if_pos hq]
      by_cases hu : u q = true
      · rw [if_pos hu, ih _ p hrest, if_neg hpq]
      · rw [if_neg hu, ih fs p hrest]
    · rw [if_neg hq]
      exact ih fs p hrest

/-- When every unlink succeeds, every requested path ends up without a
file. -/
lemma cleanupFiles_deleted (u : String → Bool) (hu : ∀ q, u q = true) :
    ∀ (paths : List String) (fs : FS) (p : String),
      p ∈ paths → (cleanupFiles u paths fs).2 p = false := by
  intro paths
  induction paths with
  | nil => intro fs p h; simp at h
  | cons q rest ih =>
    intro fs p h
    rw [cleanupFiles]
    by_cases hq : fs q = true
    · rw [if_pos hq, if_pos (hu q)]
      rcases List.mem_cons.mp h with rfl | hmem
      · exact cleanupFiles_mono u rest _ p (by simp)
      · exact ih _ p hmem
    · rw [if_neg hq]
      rcases List.mem_cons.mp h with rfl | hmem
      · by_cases hrest : p ∈ rest
        · exact ih fs p hrest
        · rw [cleanupFiles_not_mem u rest fs p hrest]
          exact Bool.not_eq_true _ ▸ (by simpa using hq)
      · exact ih fs p hmem

/-- Every run of the handler lands in one of four terminal shapes, and which
shape (with its message/body and pre-cleanup filesystem) depends only on the
environment, never on the unlink outcomes: (A) an early 400/500 return with
no temp paths allocated and the filesystem untouched; (B) the catch block
over both paths; (C) the success path cleaning `[inputPath]` (audio case);
(D) the success path cleaning both paths (extraction case). -/
lemma handler_cases (ip op : String) (env : Env) (fs0 : FS) :
    (∃ r, (env.url.isSome = false ∨ env.apiKeySet = false)
      ∧ ∀ uo : String → Bool,
          transcribeHandler ip op env uo fs0 = ([Event.respond r], fs0))
    ∨ (∃ msg fs, ∀ uo : String → Bool,
        transcribeHandler ip op env uo fs0
          = ([Event.cleanupCall [ip, op] (cleanupFiles uo [ip, op] fs).1,
              Event.respond (Response.serverError msg)],
             (cleanupFiles uo [ip, op] fs).2))
    ∨ (∃ body, ∀ uo : String → Bool,
        transcribeHandler ip op env uo fs0
          = ([Event.cleanupCall [ip] (cleanupFiles uo [ip] (setFile fs0 ip)).1,
              Event.respond (Response.success body)],
             (cleanupFiles uo [ip] (setFile fs0 ip)).2))
    ∨ (∃ body fs, ∀ uo : String → Bool,
        transcribeHandler ip op env uo fs0
          = ([Event.cleanupCall [ip, op] (cleanupFiles uo [ip, op] fs).1,
              Event.respond (Response.success body)],
             (cleanupFiles uo [ip, op] fs).2)) := by
  obtain ⟨url, key, ff, dl, dwf, extr, tr, sc, gc, sp⟩ := env
  cases url with
  | none => exact Or.inl ⟨_, Or.inl rfl, fun uo => rfl⟩
  | some u =>
    cases key with
    | false => exact Or.inl ⟨_, Or.inr rfl, fun uo => rfl⟩
    | true =>
      cases dl with
      | error msg =>
        exact Or.inr (Or.inl ⟨msg, (if dwf then setFile fs0 ip else fs0),
          fun uo => rfl⟩)
      | ok pair =>
        obtain ⟨inputSizeMB, contentType⟩ := pair
        cases hfa : isAudioFile ip contentType with
        | true =>
          cases hval : validateFileSize inputSizeMB with
          | error msg =>
            refine Or.inr (Or.inl ⟨msg, setFile fs0 ip, fun uo => ?_⟩)
            simp [transcribeHandler, transcribeAfterDownload, hfa, hval,
              transcribeCatch]
          | ok outputSizeMB =>
            cases tr with
            | error m =>
              refine Or.inr (Or.inl ⟨m, setFile fs0 ip, fun uo => ?_⟩)
              simp [transcribeHandler, transcribeAfterDownload, hfa, hval,
                transcribeFinish, transcribeCatch]
            | ok text =>
              refine Or.inr (Or.inr (Or.inl
                ⟨{ fileWasAudio := true, transcription := text,
                   sentiment := analyzeSentiment text sc,
                   summary := (generateSummary text sp gc).summary,
                   audioSizeMB := outputSizeMB,
                   estimatedDurationMinutes :=
                     parseFloat (estimateAudioDuration outputSizeMB) },
                 fun uo => ?_⟩))
              simp [transcribeHandler, transcribeAfterDownload, hfa, hval,
                transcribeFinish]
        | false =>
          cases ff with
          | none =>
            refine Or.inr (Or.inl ⟨"FFmpeg is not installed or not found.",
              setFile fs0 ip, fun uo => ?_⟩)
            simp [transcribeHandler, transcribeAfterDownload, hfa,
              transcribeCatch]
          | some f =>
            cases extr with
            | error msg =>
              refine Or.inr (Or.inl ⟨msg, setFile fs0 ip, fun uo => ?_⟩)
              simp [transcribeHandler, transcribeAfterDownload, hfa,
                transcribeCatch]
            | ok outputSizeMB =>
              cases tr with
              | error m =>
                refine Or.inr (Or.inl ⟨m, setFile (setFile fs0 ip) op,
                  fun uo => ?_⟩)
                simp [transcribeHandler, transcribeAfterDownload, hfa,
                  transcribeFinish, transcribeCatch]
              | ok text =>
                refine Or.inr (Or.inr (Or.inr
                  ⟨{ fileWasAudio := false, transcription := text,
                     sentiment := analyzeSentiment text sc,
                     summary := (generateSummary text sp gc).summary,
                     audioSizeMB := outputSizeMB,
                     estimatedDurationMinutes :=
                       parseFloat (estimateAudioDuration outputSizeMB) },
                   setFile (setFile fs0 ip) op, fun uo => ?_⟩))
                simp [transcribeHandler, transcribeAfterDownload, hfa,
                  transcribeFinish]

/-- The response a two-event trace emits. -/
lemma responseOf_two (ps : List String) (rs : List CleanedFile) (r : Response) :
    responseOf [Event.cleanupCall ps rs, Event.respond r] = some r := rfl

/-- The response a one-event trace emits. -/
lemma responseOf_one (r : Response) : responseOf [Event.respond r] = some r := rfl

/-- C3: on the success path and on every fatal-error path, the handler's
trace consists of cleanup calls followed by the single emitted response
(never the other way round); once temp paths have been allocated (valid URL
and API key), a cleanup call over a path list containing the input path
precedes the response; when every unlink succeeds no temp file survives the
request, whatever path failed; unlink failures never change the emitted
response; and `cleanupFiles` itself silently skips paths without a file. -/
theorem cleanup_before_response :
    ∀ (ip op : String) (env : Env) (uo : String → Bool) (fs0 : FS),
      ip ≠ op → fs0 ip = false → fs0 op = false →
      ((∃ r, (transcribeHandler ip op env uo fs0).1 = [Event.respond r])
        ∨ (∃ ps rs r, (transcribeHandler ip op env uo fs0).1
            = [Event.cleanupCall ps rs, Event.respond r] ∧ ip ∈ ps))
      ∧ (env.url.isSome = true → env.apiKeySet = true →
          ∃ ps rs r, (transcribeHandler ip op env uo fs0).1
            = [Event.cleanupCall ps rs, Event.respond r] ∧ ip ∈ ps)
      ∧ ((∀ p, uo p = true) →
          (transcribeHandler ip op env uo fs0).2 ip = false
          ∧ (transcribeHandler ip op env uo fs0).2 op = false)
      ∧ (∀ uo' : String → Bool,
          responseOf (transcribeHandler ip op env uo' fs0).1
            = responseOf (transcribeHandler ip op env uo fs0).1)
      ∧ (∀ (u : String → Bool) (paths : List String) (fs : FS),
          ∀ c ∈ (cleanupFiles u paths fs).1, fs c.path = true) := by
  intro ip op env uo fs0 hne h0i h0o
  have hop_ne_ip : op ≠ ip := fun h => hne h.symm
  rcases handler_cases ip op env fs0 with ⟨r, hearly, heq⟩ | ⟨msg, fs, heq⟩ |
    ⟨body, heq⟩ | ⟨body, fs, heq⟩
  · refine ⟨Or.inl ⟨r, by rw [heq uo]⟩, ?_, ?_, ?_, fun u => cleanupFiles_result_exists u⟩
    · intro hu hk
      rcases hearly with h | h
      · rw [hu] at h; exact absurd h (by simp)
      · rw [hk] at h; exact absurd h (by simp)
    · intro _
      rw [heq uo]
      exact ⟨h0i, h0o⟩
    · intro uo'
      rw [heq uo', heq uo]
  · refine ⟨Or.inr ⟨_, _, _, by rw [heq uo], by simp⟩,
      fun _ _ => ⟨_, _, _, by rw [heq uo], by simp⟩, ?_, ?_,
      fun u => cleanupFiles_result_exists u⟩
    · intro hu
      rw [heq uo]
      exact ⟨cleanupFiles_deleted uo hu [ip, op] fs ip (by simp),
        cleanupFiles_deleted uo hu [ip, op] fs op (by simp)⟩
    · intro uo'
      rw [heq uo', heq uo, responseOf_two, responseOf_two]
  · refine ⟨Or.inr ⟨_, _, _, by rw [heq uo], by simp⟩,
      fun _ _ => ⟨_, _, _, by rw [heq uo], by simp⟩, ?_, ?_,
      fun u => cleanupFiles_result_exists u⟩
    · intro hu
      rw [heq uo]
      refine ⟨cleanupFiles_deleted uo hu [ip] (setFile fs0 ip) ip (by simp), ?_⟩
      rw [cleanupFiles_not_mem uo [ip] (setFile fs0 ip) op (by simp [hop_ne_ip])]
      simp [setFile, hop_ne_ip, h0o]
    · intro uo'
      rw [heq uo', heq uo, responseOf_two, responseOf_two]
  · refine ⟨Or.inr ⟨_, _, _, by rw [heq uo], by simp⟩,
      fun _ _ => ⟨_, _, _, by rw [heq uo], by simp⟩, ?_, ?_,
      fun u => cleanupFiles_result_exists u⟩
    · intro hu
      rw [heq uo]
      exact ⟨cleanupFiles_deleted uo hu [ip, op] fs ip (by simp),
        cleanupFiles_deleted uo hu [ip, op] fs op (by simp)⟩
    · intro uo'
      rw [heq uo', heq uo, responseOf_two, responseOf_two]

/-- The environment of a request that succeeds end to end after extracting
audio: the URL ends in `.mp3` but the server declares `video/mp4`, the
downloaded video is 50 MB and its extracted audio 26 MB — above the 25 MB
ceiling — and transcription, sentiment and summary all succeed. -/
def envC1 : Env :=
  { url := some "http://example.com/talk.mp3"
    apiKeySet := true
    ffmpegPath := some "/usr/local/bin/ffmpeg"
    download := Except.ok (50, some "video/mp4")
    downloadWritesFile := true
    extraction := Except.ok 26
    transcription := Except.ok "hello world"
    sentimentCall := Except.ok
      (some { sentiment := some "positive", confidence := some 1,
              emotions := some [], summary := some "ok", error := none },
       ⟨1, 1, 2⟩)
    summaryCall := Except.ok ("a summary", ⟨1, 1, 2⟩)
    summarizationPrompt := none }

/-- Whether an emitted response is a 200. -/
def isSuccessResponse : Option Response → Bool
  | some (Response.success _) => true
  | _ => false

/-- The `metadata.fileWasAudio` flag of an emitted 200 response. -/
def fileWasAudioOf : Option Response → Option Bool
  | some (Response.success b) => some b.fileWasAudio
  | _ => none

/-- The `audioSizeMB` reported by an emitted 200 response. -/
def audioSizeOf : Option Response → Option ℚ
  | some (Response.success b) => some b.audioSizeMB
  | _ => none

/-- C1, evaluated at the failing input: a request classified NeedsExtraction
whose extracted audio is 26 MB (> 25 MB) is transcribed and answered 200 —
no size validation runs on the extraction path, so no `FileTooLargeError`
stops it, contradicting the route's own comment that the extraction result
was already size-validated. -/
theorem extraction_path_skips_validation :
    (26 : ℚ) > 25
    ∧ isSuccessResponse
        (responseOf (transcribeHandler "/tmp/input-1.webm" "/tmp/output-1.mp3"
          envC1 (fun _ => true) (fun _ => false)).1) = true
    ∧ fileWasAudioOf
        (responseOf (transcribeHandler "/tmp/input-1.webm" "/tmp/output-1.mp3"
          envC1 (fun _ => true) (fun _ => false)).1) = some false
    ∧ audioSizeOf
        (responseOf (transcribeHandler "/tmp/input-1.webm" "/tmp/output-1.mp3"
          envC1 (fun _ => true) (fun _ => false)).1) = some 26 := by
  refine ⟨by decide, ?_, ?_, ?_⟩ <;> decide

/-- Witness for `cleanup_before_response`: a concrete audio request leaves
neither temp file behind. -/
theorem cleanup_before_response_witness :
    (transcribeHandler "/tmp/input-1.webm" "/tmp/output-1.mp3" envC1
        (fun _ => true) (fun _ => false)).2 "/tmp/input-1.webm" = false
    ∧ (transcribeHandler "/tmp/input-1.webm" "/tmp/output-1.mp3" envC1
        (fun _ => true) (fun _ => false)).2 "/tmp/output-1.mp3" = false :=
  (cleanup_before_response "/tmp/input-1.webm" "/tmp/output-1.mp3" envC1
    (fun _ => true) (fun _ => false) (by decide) rfl rfl).2.2.1 (fun _ => rfl)

/-- The digit rendering is never empty. -/
lemma natDigitsAux_ne_nil (fuel n : ℕ) : natDigitsAux (fuel + 1) n ≠ [] := by
  by_cases h : n < 10 <;> simp [natDigitsAux, h]

/-- With enough fuel, every rendered digit value is below 10. -/
lemma natDigitsAux_lt_ten : ∀ (fuel n : ℕ), n < fuel →
    ∀ d ∈ natDigitsAux fuel n, d < 10 := by
  intro fuel
  induction fuel with
  | zero => omega
  | succ f ih =>
    intro n hn d hd
    by_cases h : n < 10
    · simp [natDigitsAux, h] at hd
      omega
    · simp only [natDigitsAux, h, if_false, List.mem_append, List.mem_cons,
        List.not_mem_nil, or_false] at hd
      rcases hd with hd | hd
      · exact ih (n / 10) (by omega) d hd
      · omega

/-- A digit value below 10 renders as a decimal digit character. -/
lemma digitChar_isDigit {d : ℕ} (h : d < 10) : (digitChar d).isDigit = true := by
  interval_cases d <;> decide

/-- The decimal rendering of a natural number starts with a digit
character. -/
lemma natToStr_head (n : ℕ) :
    ∃ c rest, (natToStr n).data = c :: rest ∧ c.isDigit = true := by
  obtain ⟨d, ds, hds⟩ := List.exists_cons_of_ne_nil (natDigitsAux_ne_nil n n)
  refine ⟨digitChar d, ds.map digitChar, ?_, ?_⟩
  · simp [natToStr, natDigits, hds]
  · exact digitChar_isDigit
      (natDigitsAux_lt_ten (n + 1) n (by omega) d (by rw [hds]; simp))

/-- The model `parseFloat` succeeds on any string starting with a digit. -/
lemma parseFloat_isSome_of_digit {s : String} {c : Char} {rest : List Char}
    (hdata : s.data = c :: rest) (hc : c.isDigit = true) :
    ∃ q, parseFloat s = some q := by
  have hne : ¬(c = '-') := by
    intro h
    rw [h] at hc
    exact absurd hc (by decide)
  refine ⟨parseFloatVal (c :: rest), ?_⟩
  rw [parseFloat, hdata]
  simp only [parseFloatChars, if_neg hne, parseFloatPos, if_pos hc]

/-- The model `toFixed2` always renders a digit-led string. -/
lemma toFixed2_head (q : ℚ) :
    ∃ c rest, (toFixed2 q).data = c :: rest ∧ c.isDigit = true := by
  obtain ⟨c, rest, hdata, hc⟩ := natToStr_head ((⌊q * 100 + 1 / 2⌋).toNat / 100)
  refine ⟨c, rest ++ ('.' :: (pad2 ((⌊q * 100 + 1 / 2⌋).toNat % 100)).data),
    ?_, hc⟩
  rw [toFixed2, String.data_append, String.data_append, hdata]
  simp

/-- C10: `estimateAudioDuration` returns the string `"unknown"` whenever the
size is not strictly positive and a decimal (parseable) string otherwise;
`parseFloat "unknown"` is `NaN`; and therefore a request whose uploaded audio
file has size 0 emits `metadata.tokenUsage.whisper.estimatedDurationMinutes
= NaN` (modelled as `none`) in its 200 response. -/
theorem size_zero_duration_nan :
    (∀ sizeMB : ℚ, sizeMB ≤ 0 → estimateAudioDuration sizeMB = "unknown")
    ∧ parseFloat "unknown" = none
    ∧ (∀ sizeMB : ℚ, 0 < sizeMB →
        ∃ x, parseFloat (estimateAudioDuration sizeMB) = some x)
    ∧ (∀ (ip op : String) (env : Env) (uo : String → Bool) (fs0 : FS)
        (ct : Option String),
        env.url.isSome = true → env.apiKeySet = true →
        env.download = Except.ok (0, ct) → isAudioFile ip ct = true →
        (∃ t, env.transcription = Except.ok t) →
        (responseOf (transcribeHandler ip op env uo fs0).1).bind
          estimatedOfResponse = some none) := by
  refine ⟨?_, rfl, ?_, ?_⟩
  · intro sizeMB h
    rw [estimateAudioDuration, if_neg (not_lt.mpr h)]
  · intro sizeMB h
    rw [estimateAudioDuration, if_pos h]
    obtain ⟨c, rest, hdata, hc⟩ := toFixed2_head (sizeMB / 10)
    exact parseFloat_isSome_of_digit hdata hc
  · intro ip op env uo fs0 ct hurl hkey hdl hfa htr
    obtain ⟨url, key, ff, dl, dwf, extr, tr, sc, gc, sp⟩ := env
    simp only at hurl hkey hdl htr
    cases url with
    | none => exact absurd hurl (by simp)
    | some u =>
      cases key with
      | false => exact absurd hkey (by simp)
      | true =>
        subst hdl
        obtain ⟨t, htr'⟩ := htr
        subst htr'
        have h25 : ¬((0 : ℚ) > 25) := by norm_num
        have hunk : estimateAudioDuration 0 = "unknown" := rfl
        have hpf : parseFloat "unknown" = none := rfl
        simp [transcribeHandler, transcribeAfterDownload, hfa, validateFileSize,
          h25, transcribeFinish, responseOf, estimatedOfResponse, hunk, hpf]

/-- The environment of a request whose downloaded audio file is empty
(size 0 MB) and which otherwise succeeds. -/
def envC10 : Env :=
  { url := some "http://example.com/empty.mp3"
    apiKeySet := true
    ffmpegPath := none
    download := Except.ok (0, some "audio/mpeg")
    downloadWritesFile := true
    extraction := Except.error "unused"
    transcription := Except.ok "silence"
    sentimentCall := Except.error "provider down"
    summaryCall := Except.error "provider down"
    summarizationPrompt := none }

/-- Witness for `size_zero_duration_nan` at concrete inputs. -/
theorem size_zero_duration_nan_witness :
    estimateAudioDuration (-1) = "unknown"
    ∧ (∃ x, parseFloat (estimateAudioDuration 26) = some x)
    ∧ (responseOf (transcribeHandler "/tmp/input-2.webm" "/tmp/output-2.mp3"
        envC10 (fun _ => true) (fun _ => false)).1).bind estimatedOfResponse
        = some none :=
  ⟨size_zero_duration_nan.1 (-1) (by decide),
   size_zero_duration_nan.2.2.1 26 (by decide),
   size_zero_duration_nan.2.2.2 "/tmp/input-2.webm" "/tmp/output-2.mp3" envC10
     (fun _ => true) (fun _ => false) (some "audio/mpeg") rfl rfl rfl
     (by decide) ⟨"silence", rfl⟩⟩

/-- A frame whose analysis carries a given (possibly null) people count. -/
def frameWithCount (i : ℕ) (c : Option ℕ) : FrameAnalysis :=
  { frameIndex := i, timestamp := 0,
    analysis := some { people := some { count := c, details := none },
                       activities := none, location := none, objects := none },
    tokenUsage := ⟨0, 0, 0⟩ }

/-- C7, evaluated at the failing input: with two frames whose people counts
are `2` and `null`, the aggregator's `|| 0` default runs before its
null-filter, so the null count enters the statistics as `0`: the minimum is
0 and the average is 1 (denominator 2) instead of the spec's min 2 /
average 2 over the single frame that supplied a count. -/
theorem null_count_counted_as_zero :
    peopleCountsOf [frameWithCount 0 (some 2), frameWithCount 1 none] = [2, 0]
    ∧ (aggregateFrameAnalyses
        [frameWithCount 0 (some 2), frameWithCount 1 none]).peopleCountMin = 0
    ∧ (aggregateFrameAnalyses
        [frameWithCount 0 (some 2), frameWithCount 1 none]).peopleCountMax = 2
    ∧ (aggregateFrameAnalyses
        [frameWithCount 0 (some 2), frameWithCount 1 none]).peopleCountAverage
        = 1 := by
  refine ⟨by decide, by decide, by decide, ?_⟩
  norm_num [aggregateFrameAnalyses, peopleCountsOf, frameWithCount]

/-- A frame whose analysis carries a given location type. -/
def frameWithLocation (i : ℕ) (ty : String) : FrameAnalysis :=
  { frameIndex := i, timestamp := 0,
    analysis := some { people := none, activities := none,
                       location := some { type := some ty, description := none },
                       objects := none },
    tokenUsage := ⟨0, 0, 0⟩ }

/-- Counterexample to C8 as stated: two locations `"indoor"` then
`"outdoor"`, each seen once (a tie), with `"indoor"` encountered first — yet
`mostCommon` is `"outdoor"`: the reduce keeps the accumulator only on a
strictly greater tally, so a tie moves to the later key. -/
theorem most_common_location_tie_first_fails :
    allLocationsOf [frameWithLocation 0 "indoor", frameWithLocation 1 "outdoor"]
      = ["indoor", "outdoor"]
    ∧ (aggregateFrameAnalyses
        [frameWithLocation 0 "indoor", frameWithLocation 1 "outdoor"]).locationsMostCommon
      = some "outdoor"
    ∧ ("outdoor" : String) ≠ "indoor" := by
  refine ⟨by decide, by decide, by decide⟩

/-- The fold in `mostCommonLocation` returns its seed or a list element,
and the returned value's tally is maximal among the seed's and every
element's. -/
lemma foldl_pick_max (cnt : String → ℕ) :
    ∀ (l : List String) (a : String),
      ((l.foldl (fun x y => if cnt x > cnt y then x else y) a) = a
        ∨ (l.foldl (fun x y => if cnt x > cnt y then x else y) a) ∈ l)
      ∧ cnt a ≤ cnt (l.foldl (fun x y => if cnt x > cnt y then x else y) a)
      ∧ ∀ b ∈ l, cnt b ≤ cnt (l.foldl (fun x y => if cnt x > cnt y then x else y) a) := by
  intro l
  induction l with
  | nil => exact fun a => ⟨Or.inl rfl, le_refl _, by simp⟩
  | cons b t ih =>
    intro a
    rw [List.foldl_cons]
    by_cases hab : cnt a > cnt b
    · rw [if_pos hab]
      obtain ⟨hmem, hle, hall⟩ := ih a
      refine ⟨hmem.imp id (List.mem_cons_of_mem b), hle, ?_⟩
      intro x hx
      rcases List.mem_cons.mp hx with rfl | hx
      · exact le_trans (le_of_lt hab) hle
      · exact hall x hx
    · rw [if_neg hab]
      obtain ⟨hmem, hle, hall⟩ := ih b
      refine ⟨?_, le_trans (not_lt.mp hab) hle, ?_⟩
      · rcases hmem with h | h
        · exact Or.inr (by rw [h]; exact List.mem_cons_self b t)
        · exact Or.inr (List.mem_cons_of_mem b h)
      · intro x hx
        rcases List.mem_cons.mp hx with rfl | hx
        · exact hle
        · exact hall x hx

/-- The fold in `mostCommonLocation` returns the LAST entry achieving the
maximal tally: everything after the returned value in `seed :: l` has a
strictly smaller tally. -/
lemma foldl_pick_last (cnt : String → ℕ) :
    ∀ (l : List String) (a : String),
      ∃ l₁ l₂,
        a :: l = l₁ ++ (l.foldl (fun x y => if cnt x > cnt y then x else y) a) :: l₂
        ∧ ∀ b ∈ l₂, cnt b < cnt (l.foldl (fun x y => if cnt x > cnt y then x else y) a) := by
  intro l
  induction l with
  | nil => exact fun a => ⟨[], [], rfl, by simp⟩
  | cons b t ih =>
    intro a
    rw [List.foldl_cons]
    by_cases hab : cnt a > cnt b
    · rw [if_pos hab]
      obtain ⟨l₁, l₂, heq, hlt⟩ := ih a
      cases l₁ with
      | nil =>
        rw [List.nil_append] at heq
        have h1 : a = t.foldl (fun x y => if cnt x > cnt y then x else y) a :=
          (List.cons.injEq _ _ _ _ ▸ heq).1
        have h2 : t = l₂ := (List.cons.injEq _ _ _ _ ▸ heq).2
        refine ⟨[], b :: l₂, ?_, ?_⟩
        · rw [List.nil_append, ← h1, ← h2]
        · intro x hx
          rcases List.mem_cons.mp hx with rfl | hx
          · exact lt_of_lt_of_le hab (h1 ▸ le_refl _)
          · exact hlt x hx
      | cons c l₁' =>
        have h1 : a = c := (List.cons.injEq _ _ _ _ ▸ heq).1
        have h2 : t = l₁' ++ _ :: l₂ := (List.cons.injEq _ _ _ _ ▸ heq).2
        refine ⟨a :: b :: l₁', l₂, ?_, hlt⟩
        exact congrArg (List.cons a) (congrArg (List.cons b) h2)
    · rw [if_neg hab]
      obtain ⟨l₁, l₂, heq, hlt⟩ := ih b
      exact ⟨a :: l₁, l₂, by rw [List.cons_append, ← heq], hlt⟩

/-- Membership in the insertion-ordered key list. -/
lemma mem_objectKeys_aux :
    ∀ (l acc : List String) (x : String),
      x ∈ l.foldl (fun acc y => if y ∈ acc then acc else acc ++ [y]) acc
        ↔ x ∈ acc ∨ x ∈ l := by
  intro l
  induction l with
  | nil => simp
  | cons b t ih =>
    intro acc x
    rw [List.foldl_cons]
    by_cases hb : b ∈ acc
    · rw [if_pos hb, ih]
      constructor
      · rintro (h | h)
        · exact Or.inl h
        · exact Or.inr (List.mem_cons_of_mem b h)
      · rintro (h | h)
        · exact Or.inl h
        · rcases List.mem_cons.mp h with rfl | h
          · exact Or.inl hb
          · exact Or.inr h
    · rw [if_neg hb, ih]
      simp only [List.mem_append, List.mem_cons, List.mem_singleton,
        List.not_mem_nil, or_false]
      tauto

/-- A key is in the frequency table exactly when it occurs among the
locations. -/
lemma mem_objectKeys (l : List String) (x : String) :
    x ∈ objectKeys l ↔ x ∈ l := by
  rw [objectKeys, mem_objectKeys_aux]
  simp

/-- C8 (amended): location values are tallied by exact-string frequency and
`mostCommon` is a value of highest tally, but a tie between equal tallies is
broken toward the one encountered LAST in the frequency table's stable
(insertion) iteration order — the reduce only keeps the accumulator on a
strictly greater tally. -/
theorem most_common_location_last_tie :
    ∀ frameAnalyses : List FrameAnalysis,
      allLocationsOf frameAnalyses ≠ [] →
      ∃ m l₁ l₂,
        (aggregateFrameAnalyses frameAnalyses).locationsMostCommon = some m
        ∧ objectKeys (allLocationsOf frameAnalyses) = l₁ ++ m :: l₂
        ∧ (∀ k ∈ objectKeys (allLocationsOf frameAnalyses),
            (allLocationsOf frameAnalyses).count k
              ≤ (allLocationsOf frameAnalyses).count m)
        ∧ (∀ k ∈ l₂,
            (allLocationsOf frameAnalyses).count k
              < (allLocationsOf frameAnalyses).count m) := by
  intro frameAnalyses hne
  cases hfa : frameAnalyses with
  | nil => rw [hfa] at hne; simp [allLocationsOf] at hne
  | cons f fs =>
    rw [← hfa]
    have hagg : (aggregateFrameAnalyses frameAnalyses).locationsMostCommon
        = some (mostCommonLocation (allLocationsOf frameAnalyses)) := by
      rw [hfa, aggregateFrameAnalyses]
    obtain ⟨k₀, rest, hlocs⟩ :=
      List.exists_cons_of_ne_nil hne
    have hk₀ : k₀ ∈ objectKeys (allLocationsOf frameAnalyses) :=
      (mem_objectKeys _ _).mpr (by rw [hlocs]; simp)
    obtain ⟨hmem, _, hall⟩ := foldl_pick_max
      (fun k => (allLocationsOf frameAnalyses).count k)
      (objectKeys (allLocationsOf frameAnalyses)) "unknown"
    obtain ⟨l₁, l₂, heq, hlt⟩ := foldl_pick_last
      (fun k => (allLocationsOf frameAnalyses).count k)
      (objectKeys (allLocationsOf frameAnalyses)) "unknown"
    cases l₁ with
    | nil =>
      exfalso
      rw [List.nil_append] at heq
      have hru : mostCommonLocation (allLocationsOf frameAnalyses) = "unknown" :=
        ((List.cons.injEq _ _ _ _ ▸ heq).1).symm
      have hl₂ : objectKeys (allLocationsOf frameAnalyses) = l₂ :=
        (List.cons.injEq _ _ _ _ ▸ heq).2
      have hk₀lt := hlt k₀ (hl₂ ▸ hk₀)
      by_cases hu : "unknown" ∈ allLocationsOf frameAnalyses
      · have := hlt "unknown" (hl₂ ▸ (mem_objectKeys _ _).mpr hu)
        rw [mostCommonLocation] at hru
        rw [hru] at this
        exact lt_irrefl _ this
      · have hzero : (allLocationsOf frameAnalyses).count "unknown" = 0 :=
          List.count_eq_zero.mpr hu
        rw [mostCommonLocation] at hru
        rw [hru, hzero] at hk₀lt
        exact Nat.not_lt_zero _ hk₀lt
    | cons c l₁' =>
      refine ⟨mostCommonLocation (allLocationsOf frameAnalyses), l₁', l₂,
        hagg, ?_, hall, hlt⟩
      exact (List.cons.injEq _ _ _ _ ▸ heq).2

/-- Witness for `most_common_location_last_tie` at the tied two-location
example. -/
theorem most_common_location_last_tie_witness :
    ∃ m l₁ l₂,
      (aggregateFrameAnalyses
        [frameWithLocation 0 "indoor", frameWithLocation 1 "outdoor"]).locationsMostCommon
        = some m
      ∧ objectKeys (allLocationsOf
          [frameWithLocation 0 "indoor", frameWithLocation 1 "outdoor"])
          = l₁ ++ m :: l₂
      ∧ (∀ k ∈ objectKeys (allLocationsOf
          [frameWithLocation 0 "indoor", frameWithLocation 1 "outdoor"]),
          (allLocationsOf
            [frameWithLocation 0 "indoor", frameWithLocation 1 "outdoor"]).count k
            ≤ (allLocationsOf
                [frameWithLocation 0 "indoor", frameWithLocation 1 "outdoor"]).count m)
      ∧ (∀ k ∈ l₂,
          (allLocationsOf
            [frameWithLocation 0 "indoor", frameWithLocation 1 "outdoor"]).count k
            < (allLocationsOf
                [frameWithLocation 0 "indoor", frameWithLocation 1 "outdoor"]).count m) :=
  most_common_location_last_tie
    [frameWithLocation 0 "indoor", frameWithLocation 1 "outdoor"] (by decide)

end Transcribe


